import Mathlib

/-!
Shallow embedding of the demand-driven market-data caching engine of
`market-pulse-frontend` (`src/server/rust_api`), covering:

* `TiingoMarketDataService` (`services/tiingo_market_data.rs`): the read path
  `get_symbol_prices` / `get_market_indices`, access tracking
  `track_accessed_symbols`, the due-set computations `get_symbols_to_update` /
  `get_indices_to_update`, the stale sweep `remove_stale_symbols`, and the
  orchestrating sweep `update_all_cached_data`;
* `TiingoClient` (`services/market_data_provider/tiingo.rs`): the
  `fetch_market_data` fallback chain and `clean_symbol`;
* `SymbolCacheService` (`services/symbol_cache.rs`): `refresh_cache`,
  `load_upstox_symbols_into_redis`, `get_symbol_count`.

Redis is modelled as explicit state: the `market_data:symbol:` and
`market_data:index:` key prefixes give two disjoint key namespaces, modelled
as two association lists keyed by the bare symbol; the sorted set
`market_data:accessed_symbols` is an association list member-to-score (the
sorted-set invariant is "members are distinct", carried as a `Nodup`
hypothesis where needed).  Network effects (Redis commands that can fail,
provider HTTP calls) are modelled by oracle fields in an environment record,
and externally observable calls are collected in an effect trace.  The `f64`
price fields of `SymbolPrice` / `MarketIndex` are abstracted into an opaque
`payload : Nat` since no claim here depends on float arithmetic; the `symbol`
field, which the engine uses as a key, is kept exactly.
-/

namespace MarketPulse

/-- Model of `ApiError` (`models/error.rs`, lines 8-38): one constructor per
variant, message payloads kept as strings. -/
inductive ApiError where
  | internalError (msg : String)
  | databaseError (msg : String)
  | notFound (msg : String)
  | invalidRequest (msg : String)
  | rateLimitExceeded
  | unauthorized (msg : String)
  | externalServiceError (msg : String)
  | redisError (msg : String)
  | cacheError (msg : String)
  | serviceError (msg : String)
deriving DecidableEq, Repr

/-- Model of `SymbolPrice` (`models/symbol.rs`): the `symbol` key is exact;
the numeric `f64`/timestamp/extra fields, on which no claim depends, are
abstracted into one opaque `payload`. -/
structure SymbolPrice where
  symbol : String
  payload : Nat
deriving DecidableEq, Repr

/-- Model of `MarketIndex` (`models/market_index.rs`), abstracted like
`SymbolPrice`. -/
structure MarketIndex where
  symbol : String
  payload : Nat
deriving DecidableEq, Repr

/-- Model of `BatchPriceResponse` (`models/symbol.rs`): the `HashMap` of
prices is modelled as an association list (insertion-ordered, unique keys via
`alInsert`); timestamps are integer seconds. -/
structure BatchPriceResponse where
  prices : List (String × SymbolPrice)
  timestamp : Int
deriving DecidableEq, Repr

/-- Model of `MarketIndicesCollection` (`models/market_index.rs`). -/
structure MarketIndicesCollection where
  indices : List (String × MarketIndex)
  timestamp : Int
deriving DecidableEq, Repr

/-- Insert-or-replace into an association list: the model of `HashMap::insert`
and of Redis `ZADD`/`SET` on a single key.  If the key is present its value is
replaced in place, otherwise the pair is appended. -/
def alInsert {α : Type} : List (String × α) → String → α → List (String × α)
  | [], k, v => [(k, v)]
  | e :: rest, k, v =>
    if e.1 = k then (k, v) :: rest else e :: alInsert rest k v

/-- Lookup in an association list: the model of `HashMap::get` / Redis `GET`. -/
def alLookup {α : Type} : List (String × α) → String → Option α
  | [], _ => none
  | e :: rest, k => if e.1 = k then some e.2 else alLookup rest k

/-- Remove a key from an association list: the model of Redis `DEL`. -/
def alErase {α : Type} : List (String × α) → String → List (String × α)
  | [], _ => []
  | e :: rest, k => if e.1 = k then alErase rest k else e :: alErase rest k

/-- Number of entries for a key; a sorted set keeps this at most 1. -/
def countKey {α : Type} : List (String × α) → String → Nat
  | [], _ => 0
  | e :: rest, k => (if e.1 = k then 1 else 0) + countKey rest k

/-- Redis `ZADD key score member`: insert the member or overwrite its score. -/
def zadd (m : List (String × Int)) (member : String) (score : Int) :
    List (String × Int) :=
  alInsert m member score

/-- One Redis-backed state of the market-data engine.  `prices` models the
`market_data:symbol:<s>` keys (record plus remaining TTL, `none` = no expiry),
`indices` the `market_data:index:<s>` keys, and `accessed` the
`market_data:accessed_symbols` sorted set.  Time passage is not modelled: a
TTL is the remaining lifetime as `TTL` would report it now. -/
structure RedisState where
  prices : List (String × SymbolPrice × Option Int)
  indices : List (String × MarketIndex × Option Int)
  accessed : List (String × Int)
deriving DecidableEq, Repr

/-- Externally observable calls made by the engine, for stating which
operations a code path does or does not perform. -/
inductive Effect where
  | track (symbols : List String)
  | storeGet (key : String)
  | storeSet (key : String)
  | fetch (symbols : List String)
  | fetchIndices (symbols : List String)
deriving DecidableEq, Repr

/-- Environment of one engine call: the clock, the configured durations
(`cache_duration` default 60, `stale_threshold` default 300), oracles for the
failure behaviour of the Redis commands the code issues, and the provider
(`TiingoClient`) responses.  `getFails s = true` models a failed Redis `GET`,
which the code's `match { Ok(Some(p)) => hit, _ => miss }` treats exactly like
an absent key; `setFails s = true` models a failed Redis `SET`, which the code
logs and ignores; `trackConnFails` models `get_connection` failing inside
`track_accessed_symbols`, and `zaddFails s = true` a failed `ZADD` for symbol
`s` inside its per-symbol loop. -/
structure EngineEnv where
  now : Int
  cacheDuration : Int
  staleThreshold : Int
  trackConnFails : Bool
  zaddFails : String → Bool
  getFails : String → Bool
  setFails : String → Bool
  fetch : List String → Except ApiError (List SymbolPrice)
  fetchIndices : List String → Except ApiError (List MarketIndex)

/-- The per-symbol `ZADD` loop of `track_accessed_symbols`
(`tiingo_market_data.rs`, lines 204-213): each `ZADD` carries its own
`.map_err(...)?`, so the first failing symbol propagates its error
immediately — the ZADDs of the symbols processed before it remain applied.
Returns the call's result together with the (possibly partially updated)
store state. -/
def trackZAddLoop (env : EngineEnv) :
    RedisState → List String → Except ApiError Unit × RedisState
  | st, [] => (.ok (), st)
  | st, s :: rest =>
    if env.zaddFails s then
      (.error (.internalError "Redis error"), st)
    else
      trackZAddLoop env { st with accessed := zadd st.accessed s env.now } rest

/-- `track_accessed_symbols` (`tiingo_market_data.rs`, lines 198-216): obtain
a connection (failure becomes `InternalError` and propagates before anything
is written), then `ZADD` each requested symbol in order into
`market_data:accessed_symbols` with the current timestamp as score; a `ZADD`
failure mid-loop propagates while the earlier ZADDs stay applied. -/
def track_accessed_symbols (env : EngineEnv) (st : RedisState)
    (symbols : List String) : Except ApiError Unit × RedisState :=
  if env.trackConnFails then
    (.error (.internalError "Redis connection error"), st)
  else
    trackZAddLoop env st symbols

/-- The cache read of one symbol inside the read path: a failed Redis `GET`
falls into the same `_` arm as an absent key, so both are a miss. -/
def redisGetPrice (env : EngineEnv) (st : RedisState) (s : String) :
    Option SymbolPrice :=
  if env.getFails s then none else (alLookup st.prices s).map (fun e => e.1)

/-- Likewise for the index namespace. -/
def redisGetIndex (env : EngineEnv) (st : RedisState) (s : String) :
    Option MarketIndex :=
  if env.getFails s then none else (alLookup st.indices s).map (fun e => e.1)

/-- Write a price record with the configured TTL (`redis.set(key, price,
Some(cache_duration))`). -/
def setPrice (st : RedisState) (p : SymbolPrice) (ttl : Int) : RedisState :=
  { st with prices := alInsert st.prices p.symbol (p, some ttl) }

/-- Write an index record with the configured TTL. -/
def setIndex (st : RedisState) (ix : MarketIndex) (ttl : Int) : RedisState :=
  { st with indices := alInsert st.indices ix.symbol (ix, some ttl) }

/-- The hit/miss split of the read path (`tiingo_market_data.rs`, lines
114-128): walk the requested symbols in order, collecting hits into the
`cached_prices` map keyed by the requested symbol and misses into
`symbols_to_fetch`. -/
def splitCached (env : EngineEnv) (st : RedisState) (symbols : List String) :
    List (String × SymbolPrice) × List String :=
  symbols.foldl
    (fun acc s =>
      match redisGetPrice env st s with
      | some p => (alInsert acc.1 s p, acc.2)
      | none => (acc.1, acc.2 ++ [s]))
    ([], [])

/-- `get_symbol_prices` (`tiingo_market_data.rs`, lines 103-149).  Empty
request: immediate empty success.  Otherwise: track (the `?` propagates a
tracking failure), split into hits and misses, and if there are misses call
the provider once for the whole miss-set (the `?` propagates a provider
error), write each fresh record back (write failures logged and ignored, but
the record still enters the response map keyed by the record's own `symbol`
field), and return the merged map with timestamp `now`.  Returns the result,
the final Redis state, and the trace of externally observable calls. -/
def get_symbol_prices (env : EngineEnv) (st : RedisState)
    (symbols : List String) :
    Except ApiError BatchPriceResponse × RedisState × List Effect :=
  if symbols.isEmpty then
    (.ok { prices := [], timestamp := env.now }, st, [])
  else
    match track_accessed_symbols env st symbols with
    | (.error e, st1) => (.error e, st1, [.track symbols])
    | (.ok _, st1) =>
      let split := splitCached env st1 symbols
      let effs := Effect.track symbols :: symbols.map Effect.storeGet
      if split.2.isEmpty then
        (.ok { prices := split.1, timestamp := env.now }, st1, effs)
      else
        match env.fetch split.2 with
        | .error e => (.error e, st1, effs ++ [.fetch split.2])
        | .ok fresh =>
          let st2 := fresh.foldl
            (fun s p =>
              if env.setFails p.symbol then s
              else setPrice s p env.cacheDuration) st1
          let merged := fresh.foldl (fun m p => alInsert m p.symbol p) split.1
          (.ok { prices := merged, timestamp := env.now }, st2,
            effs ++ [.fetch split.2] ++ fresh.map (fun p => .storeSet p.symbol))

/-- The hit/miss split of the index read path (`tiingo_market_data.rs`,
lines 160-174). -/
def splitCachedIndices (env : EngineEnv) (st : RedisState)
    (symbols : List String) : List (String × MarketIndex) × List String :=
  symbols.foldl
    (fun acc s =>
      match redisGetIndex env st s with
      | some p => (alInsert acc.1 s p, acc.2)
      | none => (acc.1, acc.2 ++ [s]))
    ([], [])

/-- `get_market_indices` (`tiingo_market_data.rs`, lines 152-195), the exact
mirror of `get_symbol_prices` over the index namespace; the empty request
returns `MarketIndicesCollection::new()`. -/
def get_market_indices (env : EngineEnv) (st : RedisState)
    (symbols : List String) :
    Except ApiError MarketIndicesCollection × RedisState × List Effect :=
  if symbols.isEmpty then
    (.ok { indices := [], timestamp := env.now }, st, [])
  else
    match track_accessed_symbols env st symbols with
    | (.error e, st1) => (.error e, st1, [.track symbols])
    | (.ok _, st1) =>
      let split := splitCachedIndices env st1 symbols
      let effs := Effect.track symbols :: symbols.map Effect.storeGet
      if split.2.isEmpty then
        (.ok { indices := split.1, timestamp := env.now }, st1, effs)
      else
        match env.fetchIndices split.2 with
        | .error e => (.error e, st1, effs ++ [.fetchIndices split.2])
        | .ok fresh =>
          let st2 := fresh.foldl
            (fun s ix =>
              if env.setFails ix.symbol then s
              else setIndex s ix env.cacheDuration) st1
          let merged := fresh.foldl (fun m ix => alInsert m ix.symbol ix) split.1
          (.ok { indices := merged, timestamp := env.now }, st2,
            effs ++ [.fetchIndices split.2]
              ++ fresh.map (fun ix => .storeSet ix.symbol))

/-- The value Redis `TTL market_data:symbol:<s>` reports in state `st`:
`-2` if the key is absent, `-1` if it exists without expiry, otherwise the
remaining lifetime (`tiingo_market_data.rs`, lines 244-246 document exactly
this convention). -/
def ttlCodePrice (st : RedisState) (s : String) : Int :=
  match alLookup st.prices s with
  | none => -2
  | some (_, none) => -1
  | some (_, some t) => t

/-- `TTL market_data:index:<s>`. -/
def ttlCodeIndex (st : RedisState) (s : String) : Int :=
  match alLookup st.indices s with
  | none => -2
  | some (_, none) => -1
  | some (_, some t) => t

/-- `get_symbols_to_update` (`tiingo_market_data.rs`, lines 219-253): `ZRANGE`
the whole accessed set, then keep each member whose price-key TTL is `-2` or
at most `10`. -/
def get_symbols_to_update (st : RedisState) : List String :=
  (st.accessed.map Prod.fst).filter
    (fun s => decide (ttlCodePrice st s = -2) || decide (ttlCodePrice st s ≤ 10))

/-- `get_indices_to_update` (`tiingo_market_data.rs`, lines 256-290): same
over the index namespace, from the same accessed set. -/
def get_indices_to_update (st : RedisState) : List String :=
  (st.accessed.map Prod.fst).filter
    (fun s => decide (ttlCodeIndex st s = -2) || decide (ttlCodeIndex st s ≤ 10))

/-- `remove_stale_symbols` (`tiingo_market_data.rs`, lines 293-342):
`ZRANGEBYSCORE accessed 0 (now - stale_threshold)` selects the stale members
(score between `0` and the cutoff, both inclusive); if none, return
unchanged, otherwise `ZREM` them all from the accessed set and `DEL` both
their price key and their index key. -/
def remove_stale_symbols (env : EngineEnv) (st : RedisState) : RedisState :=
  let cutoff := env.now - env.staleThreshold
  let stale := (st.accessed.filter
      (fun e => decide (0 ≤ e.2) && decide (e.2 ≤ cutoff))).map Prod.fst
  if stale.isEmpty then st
  else
    { accessed := st.accessed.filter (fun e => decide (¬ stale.contains e.1)),
      prices := stale.foldl (fun m s => alErase m s) st.prices,
      indices := stale.foldl (fun m s => alErase m s) st.indices }

/-- Fuel-driven worker for `chunksOf`; the fuel (initially the list length,
an upper bound on the number of chunks) makes the recursion structural so
that `chunksOf` evaluates by kernel reduction. -/
def chunksOfGo {α : Type} (n : Nat) : Nat → List α → List (List α)
  | _, [] => []
  | 0, l => [l]
  | fuel + 1, x :: xs => (x :: xs.take (n - 1)) :: chunksOfGo n fuel (xs.drop (n - 1))

/-- Rust's `slice::chunks(n)` for `n ≥ 1`: split a list into consecutive
chunks of size at most `n` (`symbols.chunks(20)` / `indices.chunks(10)` in the
sweep); `chunksOf_cons` states the take/drop unfolding. -/
def chunksOf {α : Type} (n : Nat) (l : List α) : List (List α) :=
  chunksOfGo n l.length l

/-- The symbol half of the sweep loop (`tiingo_market_data.rs`, lines
356-372): for each batch call the provider; on success write every returned
record back with the configured TTL (write failures logged and skipped), on
error log and continue with the next batch. -/
def runSymbolBatches (env : EngineEnv) :
    List (List String) → RedisState → RedisState × List Effect
  | [], st => (st, [])
  | chunk :: rest, st =>
    match env.fetch chunk with
    | .ok prices =>
      let st1 := prices.foldl
        (fun s p =>
          if env.setFails p.symbol then s
          else setPrice s p env.cacheDuration) st
      let next := runSymbolBatches env rest st1
      (next.1,
        Effect.fetch chunk :: prices.map (fun p => .storeSet p.symbol)
          ++ next.2)
    | .error _ =>
      let next := runSymbolBatches env rest st
      (next.1, Effect.fetch chunk :: next.2)

/-- The index half of the sweep loop (`tiingo_market_data.rs`, lines
375-391). -/
def runIndexBatches (env : EngineEnv) :
    List (List String) → RedisState → RedisState × List Effect
  | [], st => (st, [])
  | chunk :: rest, st =>
    match env.fetchIndices chunk with
    | .ok ixs =>
      let st1 := ixs.foldl
        (fun s ix =>
          if env.setFails ix.symbol then s
          else setIndex s ix env.cacheDuration) st
      let next := runIndexBatches env rest st1
      (next.1,
        Effect.fetchIndices chunk :: ixs.map (fun ix => .storeSet ix.symbol)
          ++ next.2)
    | .error _ =>
      let next := runIndexBatches env rest st
      (next.1, Effect.fetchIndices chunk :: next.2)

/-- The body of one sweep, `update_all_cached_data` (`tiingo_market_data.rs`,
lines 345-399), after the `update_lock` has been acquired: compute the due
symbols and indices, process the symbols in batches of 20 and the indices in
batches of 10, then run `remove_stale_symbols` (its failure is logged and
ignored; modelled on its success path).  In the source the whole body runs
under `self.update_lock.lock().await`, a `tokio::sync::Mutex`: a second
caller arriving while the lock is held WAITS in the mutex queue and then runs
the full body itself; `lock()` never skips (that would be `try_lock`). -/
def update_all_cached_data (env : EngineEnv) (st : RedisState) :
    RedisState × List Effect :=
  let symbols := get_symbols_to_update st
  let indices := get_indices_to_update st
  let r1 := runSymbolBatches env (chunksOf 20 symbols) st
  let r2 := runIndexBatches env (chunksOf 10 indices) r1.1
  (remove_stale_symbols env r2.1, r1.2 ++ r2.2)

/-- Two sweep triggers fired back-to-back, the second arriving while the
first still holds `update_lock`.  Because `tokio::sync::Mutex::lock().await`
queues the second caller until the first releases the lock, the observable
execution is the sequential composition of two full sweep bodies. -/
def twoOverlappingTriggers (env : EngineEnv) (st : RedisState) :
    RedisState × List Effect :=
  let r1 := update_all_cached_data env st
  let r2 := update_all_cached_data env r1.1
  (r2.1, r1.2 ++ r2.2)

/-- Number of provider (adapter) calls in an effect trace. -/
def adapterCalls (effs : List Effect) : Nat :=
  (effs.filter
    (fun e =>
      match e with
      | .fetch _ => true
      | .fetchIndices _ => true
      | _ => false)).length

/-! ## The Tiingo provider adapter (`market_data_provider/tiingo.rs`) -/

/-- `TiingoClient::clean_symbol` (`tiingo.rs`, lines 485-507): strip a `.US`
exchange suffix; for other dotted symbols replace dots with hyphens;
otherwise drop forward slashes. -/
def clean_symbol (symbol : String) : String :=
  if symbol.contains '.' then
    let parts := symbol.splitOn "."
    let exchange := String.intercalate "." (parts.drop 1)
    if exchange = "US" then parts.headD ""
    else symbol.replace "." "-"
  else if symbol.contains '/' then
    symbol.replace "/" ""
  else symbol

/-- Oracle for the two upstream HTTP endpoints a `fetch_market_data` call can
hit per symbol: the IEX real-time quote (`fetch_iex_data`) and the
end-of-day chain (`fetch_eod_data`, which internally already falls back to
the previous day).  `Ok none` is the 404 / empty-body absence case, `Err` a
hard transport/auth/parse error. -/
structure TiingoEnv where
  iex : String → Except ApiError (Option SymbolPrice)
  eod : String → Except ApiError (Option SymbolPrice)

/-- `TiingoClient::fetch_market_data` (`tiingo.rs`, lines 92-143): per
symbol, try IEX; on `Ok(Some)` take it; on `Ok(None)` fall back to EOD; on
`Err` log the error and likewise fall back to EOD; a failing or empty EOD
fallback only logs — the symbol is skipped and the loop continues.  The
whole batch always returns `Ok` with the successful subset. -/
def fetch_market_data (env : TiingoEnv) (symbols : List String) :
    Except ApiError (List SymbolPrice) :=
  if symbols.isEmpty then .ok []
  else
    .ok (symbols.foldl
      (fun results symbol =>
        let cs := clean_symbol symbol
        match env.iex cs with
        | .ok (some p) => results ++ [p]
        | .ok none =>
          match env.eod cs with
          | .ok (some p) => results ++ [p]
          | _ => results
        | .error _ =>
          match env.eod cs with
          | .ok (some p) => results ++ [p]
          | _ => results)
      [])

/-! ## The bulk symbol cache (`services/symbol_cache.rs`) -/

/-- `AssetType` (`models/symbol.rs`), as used by the Upstox loader. -/
inductive AssetType where
  | stock
  | etf
  | index
  | other
deriving DecidableEq, Repr

/-- One fetched Upstox NSE symbol, with the fields
`load_upstox_symbols_into_redis` reads from it. -/
structure UpstoxSymbol where
  symbol : String
  exchange : String
  assetType : AssetType
deriving DecidableEq, Repr

/-- `SymbolRecord` (`symbol_cache.rs`, lines 15-27). -/
structure SymbolRecord where
  ticker : String
  exchange : String
  assetType : String
  priceCurrency : String
  startDate : Option String
  endDate : Option String
deriving DecidableEq, Repr

/-- The conversion in `load_upstox_symbols_into_redis` (`symbol_cache.rs`,
lines 290-302) from a fetched Upstox symbol to a `SymbolRecord`. -/
def toSymbolRecord (sym : UpstoxSymbol) : SymbolRecord :=
  { ticker := sym.symbol,
    exchange := sym.exchange,
    assetType :=
      match sym.assetType with
      | .stock => "STOCK"
      | .etf => "ETF"
      | .index => "INDEX"
      | .other => "OTHER",
    priceCurrency := "INR",
    startDate := none,
    endDate := none }

/-- Add a member to one named set in a family of Redis sets (`SADD`). -/
def saddFam (fam : List (String × List String)) (setName member : String) :
    List (String × List String) :=
  match alLookup fam setName with
  | none => alInsert fam setName [member]
  | some members =>
    if members.contains member then fam
    else alInsert fam setName (members ++ [member])

/-- The `symbols:*` portion of the Redis keyspace owned by
`SymbolCacheService`: the per-ticker data hashes (`symbols:data:<t>`), the
search sorted set `symbols:all`, the three membership-set families
(`symbols:exchange:<e>`, `symbols:assetType:<a>`, `symbols:currency:<c>`),
and `symbols:last_updated` (its optional expiry is not modelled; no claim
reads it). -/
structure SymbolCacheState where
  dataHashes : List (String × SymbolRecord)
  zsetAll : List (String × Int)
  exchangeSets : List (String × List String)
  assetTypeSets : List (String × List String)
  currencySets : List (String × List String)
  lastUpdated : Option Int
deriving DecidableEq, Repr

/-- The keyspace after `DEL` of every `symbols:*` key. -/
def emptySymbolCacheState : SymbolCacheState :=
  { dataHashes := [],
    zsetAll := [],
    exchangeSets := [],
    assetTypeSets := [],
    currencySets := [],
    lastUpdated := none }

/-- The per-symbol body of the loader's loop (`symbol_cache.rs`, lines
288-327): `HSET` the data hash, `ZADD symbols:all <ticker>` with score
`1_000_000 + counter`, `SADD` into the exchange, asset-type and currency
sets, then increment the counter. -/
def loadOneSymbol (acc : SymbolCacheState × Nat) (sym : UpstoxSymbol) :
    SymbolCacheState × Nat :=
  let record := toSymbolRecord sym
  let st := acc.1
  ({ dataHashes := alInsert st.dataHashes record.ticker record,
     zsetAll := zadd st.zsetAll record.ticker (1000000 + (acc.2 : Int)),
     exchangeSets := saddFam st.exchangeSets record.exchange record.ticker,
     assetTypeSets := saddFam st.assetTypeSets record.assetType record.ticker,
     currencySets := saddFam st.currencySets record.priceCurrency record.ticker,
     lastUpdated := st.lastUpdated },
   acc.2 + 1)

/-- `load_upstox_symbols_into_redis` (`symbol_cache.rs`, lines 255-356) on
the fetched symbol list `nse`: if it is empty, return 0 without touching the
store; otherwise run the loop over every symbol, finish by writing
`symbols:last_updated := now`, and return the loop counter (the length of
`nse` — there is no dedup or skip in this loader). -/
def load_upstox_symbols_into_redis (now : Int) (nse : List UpstoxSymbol)
    (st : SymbolCacheState) : SymbolCacheState × Nat :=
  if nse.isEmpty then (st, 0)
  else
    let r := nse.foldl loadOneSymbol (st, 0)
    ({ r.1 with lastUpdated := some now }, r.2)

/-- `refresh_cache` (`symbol_cache.rs`, lines 359-384): `DEL` every
`symbols:*` key, then reload from Upstox and return that count. -/
def refresh_cache (now : Int) (nse : List UpstoxSymbol) :
    SymbolCacheState × Nat :=
  load_upstox_symbols_into_redis now nse emptySymbolCacheState

/-- `get_symbol_count` (`symbol_cache.rs`, lines 150-155): `ZCARD
symbols:all`, the number of distinct members of the search sorted set. -/
def get_symbol_count (st : SymbolCacheState) : Nat :=
  st.zsetAll.length

/-! ## Concrete fixtures used by counterexamples and witnesses -/

/-- A benign environment: default configuration (`cache_duration = 60`,
`stale_threshold = 300`), clock at 100, no Redis failures, a provider that
resolves nothing (`fetch_market_data` legitimately returning an empty batch,
`fetch_market_indices` as Tiingo always returning an empty vector). -/
def envBase : EngineEnv :=
  { now := 100,
    cacheDuration := 60,
    staleThreshold := 300,
    trackConnFails := false,
    zaddFails := fun _ => false,
    getFails := fun _ => false,
    setFails := fun _ => false,
    fetch := fun _ => .ok [],
    fetchIndices := fun _ => .ok [] }

/-- Environment where the tracking connection is fine but the `ZADD` for
symbol `B` fails mid-loop, while the provider has data to give. -/
def envZaddErr : EngineEnv :=
  { envBase with
    zaddFails := fun s => s == "B",
    fetch := fun _ => .ok [{ symbol := "A.US", payload := 5 }] }

/-- An empty Redis keyspace. -/
def stEmpty : RedisState := { prices := [], indices := [], accessed := [] }

/-- A cached price record for symbol `A`. -/
def priceA : SymbolPrice := { symbol := "A", payload := 1 }

/-- State with `A` cached (TTL 60) and nothing else: requesting `A` is a hit,
anything else a miss. -/
def stHitA : RedisState :=
  { prices := [("A", priceA, some 60)], indices := [], accessed := [] }

/-- Environment whose provider fails hard on every batch. -/
def envFetchErr : EngineEnv :=
  { envBase with fetch := fun _ => .error (.externalServiceError "boom") }

/-- Environment where the access-tracking Redis connection fails but the
provider has data to give. -/
def envTrackErr : EngineEnv :=
  { envBase with
    trackConnFails := true,
    fetch := fun _ => .ok [{ symbol := "AAPL.US", payload := 5 }] }

/-- State where `A` is tracked and its price record is stored WITHOUT an
expiry (Redis `TTL` reports `-1`). -/
def stNoExpiry : RedisState :=
  { prices := [("A", priceA, none)], indices := [], accessed := [("A", 95)] }

/-- State with one recently accessed symbol and no cached records: the sweep
finds it due both as a symbol and as an index. -/
def stDue : RedisState :=
  { prices := [], indices := [], accessed := [("AAPL", 90)] }

/-- Tiingo oracle in which both the IEX endpoint and the EOD chain fail hard
(e.g. HTTP 500) for every symbol. -/
def tiingoAllErr : TiingoEnv :=
  { iex := fun _ => .error (.externalServiceError "500"),
    eod := fun _ => .error (.externalServiceError "500") }

/-- A fetched Upstox list containing the same ticker twice. -/
def dupTickers : List UpstoxSymbol :=
  [{ symbol := "A", exchange := "NSE", assetType := .stock },
   { symbol := "A", exchange := "NSE", assetType := .stock }]

/-- N successive `track_accessed_symbols([s])` calls at the given sequence of
timestamps, each call seeing the clock at its own time and the store state
the previous call left behind. -/
def trackCallSequence (env : EngineEnv) (s : String) :
    List Int → RedisState → RedisState
  | [], st => st
  | t :: rest, st =>
    trackCallSequence env s rest
      (track_accessed_symbols { env with now := t } st [s]).2

/-- State with a stale symbol `OLD` (last access 50) and a fresh symbol `NEW`
(last access 400), both with cached price records and `OLD` also with a
cached index record. -/
def stStale : RedisState :=
  { prices := [("OLD", { symbol := "OLD", payload := 3 }, some 60),
               ("NEW", { symbol := "NEW", payload := 4 }, some 60)],
    indices := [("OLD", { symbol := "OLD", payload := 2 }, some 60)],
    accessed := [("OLD", 50), ("NEW", 400)] }

/-- The benign environment with the clock at 400, so the stale cutoff is
400 - 300 = 100. -/
def envLate : EngineEnv := { envBase with now := 400 }

/-- A fetched Upstox list with two distinct tickers. -/
def distinctTickers : List UpstoxSymbol :=
  [{ symbol := "A", exchange := "NSE", assetType := .stock },
   { symbol := "B", exchange := "NSE", assetType := .etf }]

/-! ## Association-list and sorted-set lemmas -/

/-- The fuel argument of `chunksOfGo` is irrelevant once it bounds the list
length. -/
theorem chunksOfGo_eq {α : Type} (n : Nat) (fuel : Nat) :
    ∀ (l : List α), l.length ≤ fuel → chunksOfGo n fuel l = chunksOf n l := by
  induction fuel using Nat.strong_induction_on with
  | _ fuel ih =>
    intro l h
    cases l with
    | nil => cases fuel <;> rfl
    | cons x xs =>
      cases fuel with
      | zero => simp at h
      | succ f =>
        rw [chunksOfGo, chunksOf, List.length_cons, chunksOfGo]
        have hd : (xs.drop (n - 1)).length ≤ xs.length := by
          simp only [List.length_drop]; omega
        have hlen : xs.length ≤ f := by
          simp only [List.length_cons] at h; omega
        have e1 := ih f (Nat.lt_succ_self f) (xs.drop (n - 1)) (le_trans hd hlen)
        have e2 := ih xs.length (Nat.lt_succ_of_le hlen) (xs.drop (n - 1)) hd
        rw [e1, e2]

/-- Unfolding of `chunksOf` on a nonempty list: the first chunk is the first
`n` elements, the rest is `chunksOf` of the remainder. -/
theorem chunksOf_cons {α : Type} (n : Nat) (x : α) (xs : List α) :
    chunksOf n (x :: xs)
      = (x :: xs.take (n - 1)) :: chunksOf n (xs.drop (n - 1)) := by
  rw [chunksOf, List.length_cons, chunksOfGo]
  rw [chunksOfGo_eq n xs.length (xs.drop (n - 1))
    (by simp only [List.length_drop]; omega)]


theorem alLookup_alInsert_self {α : Type} (m : List (String × α)) (k : String) (v : α) :
    alLookup (alInsert m k v) k = some v := by
  induction m with
  | nil => simp [alInsert, alLookup]
  | cons e rest ih =>
    by_cases h : e.1 = k
    · simp [alInsert, alLookup, h]
    · rw [alInsert, if_neg h, alLookup, if_neg h]
      exact ih

theorem alLookup_alInsert_ne {α : Type} (m : List (String × α)) {k k2 : String} (v : α)
    (h : k2 ≠ k) : alLookup (alInsert m k v) k2 = alLookup m k2 := by
  induction m with
  | nil => simp [alInsert, alLookup, Ne.symm h]
  | cons e rest ih =>
    by_cases he : e.1 = k
    · rw [alInsert, if_pos he, alLookup, alLookup, if_neg (Ne.symm h),
        if_neg (fun hc => h (hc.symm.trans he))]
    · rw [alInsert, if_neg he, alLookup, alLookup]
      by_cases he2 : e.1 = k2
      · rw [if_pos he2, if_pos he2]
      · rw [if_neg he2, if_neg he2]
        exact ih

theorem keys_alInsert {α : Type} (m : List (String × α)) (k : String) (v : α)
    (k2 : String) :
    (k2 ∈ (alInsert m k v).map Prod.fst) ↔ (k2 = k ∨ k2 ∈ m.map Prod.fst) := by
  induction m with
  | nil => simp [alInsert]
  | cons e rest ih =>
    by_cases he : e.1 = k
    · rw [alInsert, if_pos he]
      simp only [List.map_cons, List.mem_cons]
      constructor
      · rintro (h1 | h1)
        · exact Or.inl h1
        · exact Or.inr (Or.inr h1)
      · rintro (h1 | h1 | h1)
        · exact Or.inl h1
        · rw [he] at h1; exact Or.inl h1
        · exact Or.inr h1
    · rw [alInsert, if_neg he]
      simp only [List.map_cons, List.mem_cons, ih]
      tauto

theorem nodupKeys_alInsert {α : Type} (m : List (String × α)) (k : String) (v : α)
    (h : (m.map Prod.fst).Nodup) : ((alInsert m k v).map Prod.fst).Nodup := by
  induction m with
  | nil => simp [alInsert]
  | cons e rest ih =>
    simp only [List.map_cons, List.nodup_cons] at h
    by_cases he : e.1 = k
    · rw [alInsert, if_pos he]
      simp only [List.map_cons, List.nodup_cons]
      exact ⟨by rw [← he]; exact h.1, h.2⟩
    · rw [alInsert, if_neg he]
      simp only [List.map_cons, List.nodup_cons]
      refine ⟨?_, ih h.2⟩
      rw [keys_alInsert]
      rintro (h1 | h1)
      · exact he h1
      · exact h.1 h1

theorem countKey_alInsert_self {α : Type} (m : List (String × α)) (k : String) (v : α)
    (h : countKey m k ≤ 1) : countKey (alInsert m k v) k = 1 := by
  induction m with
  | nil => simp [alInsert, countKey]
  | cons e rest ih =>
    by_cases he : e.1 = k
    · rw [alInsert, if_pos he]
      rw [countKey, if_pos rfl]
      rw [countKey, if_pos he] at h
      have h0 : countKey rest k = 0 := by omega
      omega
    · rw [alInsert, if_neg he, countKey, if_neg he]
      rw [countKey, if_neg he] at h
      rw [ih (by omega)]

theorem countKey_of_nodup {α : Type} (m : List (String × α)) (k : String)
    (h : (m.map Prod.fst).Nodup) : countKey m k ≤ 1 := by
  induction m with
  | nil => simp [countKey]
  | cons e rest ih =>
    simp only [List.map_cons, List.nodup_cons] at h
    by_cases he : e.1 = k
    · rw [countKey, if_pos he]
      have h0 : countKey rest k = 0 := by
        have hnot : k ∉ rest.map Prod.fst := by rw [← he]; exact h.1
        clear ih h he
        induction rest with
        | nil => rfl
        | cons f rest2 ih2 =>
          simp only [List.map_cons, List.mem_cons, not_or] at hnot
          rw [countKey, if_neg (fun hf => hnot.1 hf.symm), ih2 hnot.2]
      omega
    · rw [countKey, if_neg he]
      have := ih h.2
      omega

theorem alLookup_alErase_self {α : Type} (m : List (String × α)) (k : String) :
    alLookup (alErase m k) k = none := by
  induction m with
  | nil => rfl
  | cons e rest ih =>
    by_cases he : e.1 = k
    · rw [alErase, if_pos he]; exact ih
    · rw [alErase, if_neg he, alLookup, if_neg he]; exact ih

theorem alLookup_alErase_ne {α : Type} (m : List (String × α)) {k k2 : String}
    (h : k2 ≠ k) : alLookup (alErase m k) k2 = alLookup m k2 := by
  induction m with
  | nil => rfl
  | cons e rest ih =>
    by_cases he : e.1 = k
    · rw [alErase, if_pos he, alLookup, if_neg (by rw [he]; exact Ne.symm h)]
      exact ih
    · rw [alErase, if_neg he, alLookup, alLookup]
      by_cases he2 : e.1 = k2
      · rw [if_pos he2, if_pos he2]
      · rw [if_neg he2, if_neg he2]; exact ih

theorem alLookup_foldl_erase_none {α : Type} (ks : List String)
    (m : List (String × α)) (k : String) (h : alLookup m k = none) :
    alLookup (ks.foldl (fun acc s => alErase acc s) m) k = none := by
  induction ks generalizing m with
  | nil => exact h
  | cons x rest ih =>
    rw [List.foldl_cons]
    refine ih _ ?_
    by_cases hx : k = x
    · subst hx; exact alLookup_alErase_self m k
    · rw [alLookup_alErase_ne m hx]; exact h

theorem alLookup_foldl_erase_mem {α : Type} (ks : List String)
    (m : List (String × α)) (k : String) (h : k ∈ ks) :
    alLookup (ks.foldl (fun acc s => alErase acc s) m) k = none := by
  induction ks generalizing m with
  | nil => cases h
  | cons x rest ih =>
    rw [List.foldl_cons]
    rcases List.mem_cons.mp h with h1 | h1
    · subst h1
      exact alLookup_foldl_erase_none rest _ k (alLookup_alErase_self m k)
    · exact ih _ h1

theorem alLookup_foldl_erase_not_mem {α : Type} (ks : List String)
    (m : List (String × α)) (k : String) (h : ∀ x ∈ ks, x ≠ k) :
    alLookup (ks.foldl (fun acc s => alErase acc s) m) k = alLookup m k := by
  induction ks generalizing m with
  | nil => rfl
  | cons x rest ih =>
    rw [List.foldl_cons]
    rw [ih _ (fun y hy => h y (List.mem_cons_of_mem x hy))]
    exact alLookup_alErase_ne m (fun hk => (h x (List.mem_cons_self x rest)) hk.symm)

theorem eq_of_mem_of_nodupKeys {α : Type} (m : List (String × α)) (k : String)
    (a b : α) (h : (m.map Prod.fst).Nodup) (ha : (k, a) ∈ m) (hb : (k, b) ∈ m) :
    a = b := by
  induction m with
  | nil => cases ha
  | cons e rest ih =>
    simp only [List.map_cons, List.nodup_cons] at h
    rcases List.mem_cons.mp ha with h1 | h1 <;> rcases List.mem_cons.mp hb with h2 | h2
    · rw [← h1] at h2; exact congrArg Prod.snd h2.symm
    · exfalso; apply h.1; rw [← h1]; exact List.mem_map.mpr ⟨(k, b), h2, rfl⟩
    · exfalso; apply h.1; rw [← h2]; exact List.mem_map.mpr ⟨(k, a), h1, rfl⟩
    · exact ih h.2 h1 h2


theorem countKey_alInsert_ne {α : Type} (m : List (String × α)) {k k2 : String}
    (v : α) (h : k2 ≠ k) : countKey (alInsert m k v) k2 = countKey m k2 := by
  induction m with
  | nil => simp [alInsert, countKey, Ne.symm h]
  | cons e rest ih =>
    by_cases he : e.1 = k
    · rw [alInsert, if_pos he, countKey, countKey, if_neg (Ne.symm h),
        if_neg (fun hc => h (hc.symm.trans he))]
    · rw [alInsert, if_neg he, countKey, countKey, ih]

theorem length_alInsert_absent {α : Type} (m : List (String × α)) (k : String)
    (v : α) (h : countKey m k = 0) : (alInsert m k v).length = m.length + 1 := by
  induction m with
  | nil => rfl
  | cons e rest ih =>
    rw [countKey] at h
    by_cases he : e.1 = k
    · rw [if_pos he] at h; omega
    · rw [if_neg he] at h
      rw [alInsert, if_neg he, List.length_cons, List.length_cons, ih (by omega)]

/-! ## Lemmas about the read path and the sweep -/

theorem splitCached_foldl_all_miss (env : EngineEnv) (st : RedisState)
    (symbols : List String) (acc : List (String × SymbolPrice) × List String)
    (h : ∀ s ∈ symbols, redisGetPrice env st s = none) :
    symbols.foldl
      (fun acc s =>
        match redisGetPrice env st s with
        | some p => (alInsert acc.1 s p, acc.2)
        | none => (acc.1, acc.2 ++ [s])) acc
      = (acc.1, acc.2 ++ symbols) := by
  induction symbols generalizing acc with
  | nil => simp
  | cons x rest ih =>
    rw [List.foldl_cons, h x (List.mem_cons_self x rest)]
    rw [ih _ (fun s hs => h s (List.mem_cons_of_mem x hs))]
    simp

theorem splitCached_all_miss (env : EngineEnv) (st : RedisState)
    (symbols : List String)
    (h : ∀ s ∈ symbols, redisGetPrice env st s = none) :
    splitCached env st symbols = ([], symbols) := by
  rw [splitCached, splitCached_foldl_all_miss env st symbols ([], []) h]
  simp

theorem splitCached_accessed_irrelevant (env : EngineEnv) (st : RedisState)
    (a : List (String × Int)) (symbols : List String) :
    splitCached env { st with accessed := a } symbols
      = splitCached env st symbols := rfl

theorem trackZAddLoop_prices (env : EngineEnv) :
    ∀ (symbols : List String) (st : RedisState),
      ((trackZAddLoop env st symbols).2).prices = st.prices := by
  intro symbols
  induction symbols with
  | nil => intro st; rfl
  | cons s rest ih =>
    intro st
    rw [trackZAddLoop]
    by_cases hz : env.zaddFails s
    · rw [if_pos hz]
    · rw [if_neg hz]
      exact ih _

theorem trackZAddLoop_indices (env : EngineEnv) :
    ∀ (symbols : List String) (st : RedisState),
      ((trackZAddLoop env st symbols).2).indices = st.indices := by
  intro symbols
  induction symbols with
  | nil => intro st; rfl
  | cons s rest ih =>
    intro st
    rw [trackZAddLoop]
    by_cases hz : env.zaddFails s
    · rw [if_pos hz]
    · rw [if_neg hz]
      exact ih _

theorem trackZAddLoop_ok (env : EngineEnv) :
    ∀ (symbols : List String) (st : RedisState),
      (∀ s ∈ symbols, env.zaddFails s = false) →
      trackZAddLoop env st symbols
        = (.ok (),
           { st with
             accessed := symbols.foldl (fun a s => zadd a s env.now) st.accessed }) := by
  intro symbols
  induction symbols with
  | nil => intro st _; rfl
  | cons s rest ih =>
    intro st hz
    rw [trackZAddLoop,
      if_neg (by rw [hz s (List.mem_cons_self s rest)]; exact Bool.false_ne_true)]
    rw [ih _ (fun x hx => hz x (List.mem_cons_of_mem s hx)), List.foldl_cons]

theorem track_ok (env : EngineEnv) (st : RedisState) (symbols : List String)
    (hconn : env.trackConnFails = false)
    (hz : ∀ s ∈ symbols, env.zaddFails s = false) :
    track_accessed_symbols env st symbols
      = (.ok (),
         { st with
           accessed := symbols.foldl (fun a s => zadd a s env.now) st.accessed }) := by
  rw [track_accessed_symbols, if_neg (by rw [hconn]; exact Bool.false_ne_true)]
  exact trackZAddLoop_ok env symbols st hz

theorem chunksOf_ne_nil {α : Type} (n : Nat) (l : List α) (h : l ≠ []) :
    chunksOf n l ≠ [] := by
  cases l with
  | nil => exact absurd rfl h
  | cons x xs => rw [chunksOf_cons]; exact List.cons_ne_nil _ _

theorem fetch_mem_runSymbolBatches (env : EngineEnv) (chunks : List (List String))
    (st : RedisState) (h : chunks ≠ []) :
    ∃ c, Effect.fetch c ∈ (runSymbolBatches env chunks st).2 := by
  cases chunks with
  | nil => exact absurd rfl h
  | cons chunk rest =>
    refine ⟨chunk, ?_⟩
    rw [runSymbolBatches]
    rcases hf : env.fetch chunk with e | prices
    · simp only
      exact List.mem_cons_self _ _
    · simp only
      exact List.mem_cons_self _ _

theorem ttlCond_iff_aux (x : Option (SymbolPrice × Option Int)) :
    ((match x with
      | none => (-2 : Int)
      | some (_, none) => (-1 : Int)
      | some (_, some t) => t) = -2
     ∨ (match x with
        | none => (-2 : Int)
        | some (_, none) => (-1 : Int)
        | some (_, some t) => t) ≤ 10)
      ↔ (x = none
         ∨ (∃ p, x = some (p, none))
         ∨ (∃ p t, x = some (p, some t) ∧ t ≤ 10)) := by
  rcases x with _ | ⟨p, _ | t⟩
  · simp
  · simp only
    constructor
    · intro _
      exact Or.inr (Or.inl ⟨p, rfl⟩)
    · intro _
      refine Or.inr ?_
      omega
  · simp only
    constructor
    · intro h
      refine Or.inr (Or.inr ⟨p, t, rfl, ?_⟩)
      omega
    · rintro (h | ⟨p2, h⟩ | ⟨p2, t2, heq, hle⟩)
      · cases h
      · cases h
      · rw [Option.some_inj, Prod.mk.injEq] at heq
        obtain ⟨-, heq2⟩ := heq
        rw [Option.some_inj] at heq2
        omega

/-! ## Lemmas about the bulk symbol loader -/

theorem loadFold_counter (nse : List UpstoxSymbol) :
    ∀ (st : SymbolCacheState) (c : Nat),
      (nse.foldl loadOneSymbol (st, c)).2 = c + nse.length := by
  induction nse with
  | nil => intro st c; simp
  | cons x xs ih =>
    intro st c
    rw [List.foldl_cons]
    calc (List.foldl loadOneSymbol (loadOneSymbol (st, c) x) xs).2
        = (List.foldl loadOneSymbol ((loadOneSymbol (st, c) x).1, c + 1) xs).2 := rfl
      _ = (c + 1) + xs.length := ih _ _
      _ = c + (x :: xs).length := by simp [List.length_cons]; omega

theorem loadFold_zset (nse : List UpstoxSymbol) :
    ∀ (st : SymbolCacheState) (c : Nat),
      (nse.map (fun sym => sym.symbol)).Nodup →
      (∀ sym ∈ nse, countKey st.zsetAll sym.symbol = 0) →
      (nse.foldl loadOneSymbol (st, c)).1.zsetAll.length
        = st.zsetAll.length + nse.length := by
  induction nse with
  | nil => intro st c _ _; simp
  | cons x xs ih =>
    intro st c hnodup habs
    rw [List.foldl_cons]
    simp only [List.map_cons, List.nodup_cons] at hnodup
    have habs2 : ∀ sym ∈ xs,
        countKey (loadOneSymbol (st, c) x).1.zsetAll sym.symbol = 0 := by
      intro sym hmem
      have hne : sym.symbol ≠ x.symbol := by
        intro hc
        exact hnodup.1 (List.mem_map.mpr ⟨sym, hmem, hc⟩)
      calc countKey (loadOneSymbol (st, c) x).1.zsetAll sym.symbol
          = countKey (alInsert st.zsetAll x.symbol (1000000 + (c : Int))) sym.symbol := rfl
        _ = countKey st.zsetAll sym.symbol := countKey_alInsert_ne _ _ hne
        _ = 0 := habs sym (List.mem_cons_of_mem x hmem)
    calc (List.foldl loadOneSymbol (loadOneSymbol (st, c) x) xs).1.zsetAll.length
        = (List.foldl loadOneSymbol ((loadOneSymbol (st, c) x).1, c + 1) xs).1.zsetAll.length := rfl
      _ = (loadOneSymbol (st, c) x).1.zsetAll.length + xs.length := ih _ _ hnodup.2 habs2
      _ = (alInsert st.zsetAll x.symbol (1000000 + (c : Int))).length + xs.length := rfl
      _ = (st.zsetAll.length + 1) + xs.length := by
          rw [length_alInsert_absent _ _ _ (habs x (List.mem_cons_self x xs))]
      _ = st.zsetAll.length + (x :: xs).length := by simp [List.length_cons]; omega


/-! ## Claim C1 -/

/-- Claim C1, counterexample: with nothing cached (`stEmpty`) and a provider
that returns no records for the miss-set without erroring
(`envBase.fetch _ = Ok []`), `get_symbol_prices(["AAPL"])` returns a
SUCCESSFUL response with an empty prices map and never an error — the read
path of `get_symbol_prices` has no `NotFound` branch — contradicting the
claim that such a call reports a "no data available" error. -/
theorem c1_empty_success_not_error :
    (get_symbol_prices envBase stEmpty ["AAPL"]).1
        = .ok { prices := [], timestamp := 100 }
      ∧ ∀ e, (get_symbol_prices envBase stEmpty ["AAPL"]).1 ≠ .error e := by
  refine ⟨rfl, ?_⟩
  intro e h
  rw [show (get_symbol_prices envBase stEmpty ["AAPL"]).1
      = .ok { prices := [], timestamp := 100 } from rfl] at h
  cases h

/-- Claim C1, amended: for every non-empty request in which tracking succeeds
(connection up, no `ZADD` failure), every symbol misses the Price Store, and
the provider returns no records for the miss-set without erroring,
`get_symbol_prices` returns a successful response whose prices map is empty
(timestamped now) — an empty success, not a `NotFound` error. -/
theorem c1_all_miss_empty_fetch_returns_empty_ok (env : EngineEnv)
    (st : RedisState) (symbols : List String)
    (hne : symbols ≠ [])
    (htrack : env.trackConnFails = false)
    (hzadd : ∀ s ∈ symbols, env.zaddFails s = false)
    (hmiss : ∀ s ∈ symbols, redisGetPrice env st s = none)
    (hfetch : env.fetch symbols = .ok []) :
    (get_symbol_prices env st symbols).1
      = .ok { prices := [], timestamp := env.now } := by
  obtain ⟨x, xs, rfl⟩ : ∃ x xs, symbols = x :: xs := by
    cases symbols with
    | nil => exact absurd rfl hne
    | cons x xs => exact ⟨x, xs, rfl⟩
  rw [get_symbol_prices]
  simp only [List.isEmpty_cons, Bool.false_eq_true, if_false]
  rw [track_ok env st _ htrack hzadd]
  simp only
  rw [splitCached_accessed_irrelevant, splitCached_all_miss env st _ hmiss]
  simp only [List.isEmpty_cons, Bool.false_eq_true, if_false]
  rw [hfetch]
  simp

/-- Claim C1, witness for the amended theorem at the concrete no-data
request. -/
theorem c1_all_miss_empty_fetch_returns_empty_ok_witness :
    (["AAPL"] : List String) ≠ []
      ∧ (get_symbol_prices envBase stEmpty ["AAPL"]).1
          = .ok { prices := [], timestamp := 100 } :=
  ⟨by decide,
   c1_all_miss_empty_fetch_returns_empty_ok envBase stEmpty ["AAPL"]
     (by decide) rfl (fun s _ => rfl) (fun s _ => rfl) rfl⟩

/-! ## Claim C2 -/

/-- Claim C2, counterexample: symbol `A` is a cache hit in `stHitA`, `B` is a
miss, and the provider fails hard on the miss-set; `get_symbol_prices` STILL
returns the provider error instead of the cached data, contradicting the
claim that a provider error does not propagate when there is at least one
hit. -/
theorem c2_hit_with_provider_error_returns_error :
    redisGetPrice envFetchErr stHitA "A" = some priceA
      ∧ (get_symbol_prices envFetchErr stHitA ["A", "B"]).1
          = .error (.externalServiceError "boom") := ⟨rfl, rfl⟩

/-- Claim C2, amended: whenever the miss-set is non-empty and the provider
returns an error for it, `get_symbol_prices` propagates that error to the
caller — regardless of how many requested symbols were cache hits.  Cached
data shields the caller from provider errors only in the degenerate sense
that the provider is not called at all when every requested symbol is a
hit. -/
theorem c2_provider_error_propagates (env : EngineEnv) (st : RedisState)
    (symbols : List String) (e : ApiError)
    (htrack : env.trackConnFails = false)
    (hzadd : ∀ s ∈ symbols, env.zaddFails s = false)
    (hmiss : (splitCached env st symbols).2 ≠ [])
    (hfetch : env.fetch (splitCached env st symbols).2 = .error e) :
    (get_symbol_prices env st symbols).1 = .error e := by
  obtain ⟨x, xs, rfl⟩ : ∃ x xs, symbols = x :: xs := by
    cases symbols with
    | nil => exact absurd rfl hmiss
    | cons x xs => exact ⟨x, xs, rfl⟩
  rw [get_symbol_prices]
  simp only [List.isEmpty_cons, Bool.false_eq_true, if_false]
  rw [track_ok env st _ htrack hzadd]
  simp only
  rw [splitCached_accessed_irrelevant]
  rw [if_neg (by simpa using hmiss)]
  rw [hfetch]

/-- Claim C2, witness for the amended theorem at the mixed hit/miss request
with a failing provider. -/
theorem c2_provider_error_propagates_witness :
    (splitCached envFetchErr stHitA ["A", "B"]).2 ≠ []
      ∧ (get_symbol_prices envFetchErr stHitA ["A", "B"]).1
          = .error (.externalServiceError "boom") :=
  ⟨by decide,
   c2_provider_error_propagates envFetchErr stHitA ["A", "B"]
     (.externalServiceError "boom") rfl (fun s _ => rfl) (by decide) rfl⟩

/-! ## Claim C3 -/

/-- Claim C3, counterexample: in `stDue` one sweep performs exactly 2 adapter
calls (one symbol batch, one index batch).  The sweep body runs under
`tokio::sync::Mutex::lock().await`, which QUEUES a second caller instead of
skipping it, so two back-to-back triggers execute two full sweeps — 4 adapter
calls, not the claimed "exactly one sweep's worth" (2). -/
theorem c3_two_triggers_two_sweeps_of_calls :
    adapterCalls (update_all_cached_data envBase stDue).2 = 2
      ∧ adapterCalls (twoOverlappingTriggers envBase stDue).2 = 4
      ∧ adapterCalls (twoOverlappingTriggers envBase stDue).2
          ≠ adapterCalls (update_all_cached_data envBase stDue).2 :=
  ⟨rfl, rfl, by decide⟩

/-- Claim C3, amended: a sweep trigger arriving while another sweep is in
progress waits on the update mutex and then runs a full sweep body of its
own; it is serialized, not skipped.  In particular, whenever the due-set is
still non-empty after the first sweep, the second invocation performs at
least one adapter fetch — it is not a no-op. -/
theorem c3_second_trigger_runs_full_sweep (env : EngineEnv) (st : RedisState)
    (h : get_symbols_to_update (update_all_cached_data env st).1 ≠ []) :
    ∃ c, Effect.fetch c
      ∈ (update_all_cached_data env (update_all_cached_data env st).1).2 := by
  obtain ⟨c, hc⟩ := fetch_mem_runSymbolBatches env
    (chunksOf 20 (get_symbols_to_update (update_all_cached_data env st).1))
    (update_all_cached_data env st).1
    (chunksOf_ne_nil _ _ h)
  refine ⟨c, ?_⟩
  rw [update_all_cached_data]
  exact List.mem_append_left _ hc

/-- Claim C3, witness for the amended theorem: after a first sweep that
cached nothing (the provider resolved no symbols), the due-set is still
non-empty and the queued second sweep performs an adapter fetch. -/
theorem c3_second_trigger_runs_full_sweep_witness :
    get_symbols_to_update (update_all_cached_data envBase stDue).1 ≠ []
      ∧ ∃ c, Effect.fetch c
          ∈ (update_all_cached_data envBase
              (update_all_cached_data envBase stDue).1).2 :=
  ⟨by decide, c3_second_trigger_runs_full_sweep envBase stDue (by decide)⟩

/-! ## Claim C4 -/

/-- Claim C4, counterexample: with the tracking connection failing
(`envTrackErr`) but the provider perfectly able to return data,
`get_symbol_prices(["AAPL"])` returns the tracking `InternalError` and its
effect trace contains ONLY the tracking attempt — no cache lookup and no
provider fetch happen — contradicting the claim that a tracking failure does
not fail the read. -/
theorem c4_track_failure_fails_read :
    (get_symbol_prices envTrackErr stEmpty ["AAPL"]).1
        = .error (.internalError "Redis connection error")
      ∧ (get_symbol_prices envTrackErr stEmpty ["AAPL"]).2.2
          = [.track ["AAPL"]]
      ∧ envTrackErr.fetch ["AAPL"] = .ok [{ symbol := "AAPL.US", payload := 5 }] :=
  ⟨rfl, rfl, rfl⟩

/-- Claim C4, amended: on every non-empty request, a failure of
`track_accessed_symbols` (connection failure, or any `ZADD` failing mid-loop)
fails the whole read: the error propagates to the caller, the only externally
observable call is the tracking attempt (no store lookup, no provider fetch),
and the price and index stores are untouched — but the accessed set retains
exactly the ZADDs that succeeded before the failure, so the store as a whole
is not necessarily unchanged. -/
theorem c4_track_failure_propagates (env : EngineEnv) (st : RedisState)
    (symbols : List String) (e : ApiError)
    (hne : symbols ≠ [])
    (hfail : (track_accessed_symbols env st symbols).1 = .error e) :
    get_symbol_prices env st symbols
        = (.error e, (track_accessed_symbols env st symbols).2,
            [.track symbols])
      ∧ ((track_accessed_symbols env st symbols).2).prices = st.prices
      ∧ ((track_accessed_symbols env st symbols).2).indices = st.indices := by
  obtain ⟨x, xs, rfl⟩ : ∃ x xs, symbols = x :: xs := by
    cases symbols with
    | nil => exact absurd rfl hne
    | cons x xs => exact ⟨x, xs, rfl⟩
  refine ⟨?_, ?_, ?_⟩
  · rw [get_symbol_prices]
    simp only [List.isEmpty_cons, Bool.false_eq_true, if_false]
    rcases htr : track_accessed_symbols env st (x :: xs) with ⟨res, st1⟩
    rw [htr] at hfail
    simp only at hfail
    subst hfail
    simp only
  · rw [track_accessed_symbols]
    by_cases hconn : env.trackConnFails
    · rw [if_pos hconn]
    · rw [if_neg hconn]
      exact trackZAddLoop_prices env _ _
  · rw [track_accessed_symbols]
    by_cases hconn : env.trackConnFails
    · rw [if_pos hconn]
    · rw [if_neg hconn]
      exact trackZAddLoop_indices env _ _

/-- Claim C4, witness for the amended theorem at a request whose second
symbol's `ZADD` fails mid-loop: the read fails with the ZADD error and only
the tracking attempt appears in the trace, while the accessed set keeps the
first symbol's successful ZADD. -/
theorem c4_track_failure_propagates_witness :
    (["A", "B"] : List String) ≠ []
      ∧ (track_accessed_symbols envZaddErr stEmpty ["A", "B"]).1
          = .error (.internalError "Redis error")
      ∧ get_symbol_prices envZaddErr stEmpty ["A", "B"]
          = (.error (.internalError "Redis error"),
             { prices := [], indices := [], accessed := [("A", 100)] },
             [.track ["A", "B"]]) := by
  refine ⟨by decide, rfl, ?_⟩
  have h := c4_track_failure_propagates envZaddErr stEmpty ["A", "B"]
    (.internalError "Redis error") (by decide) rfl
  exact h.1

/-! ## Claim C5 -/

/-- Claim C5, counterexample: in `stNoExpiry` the tracked symbol `A` has a
cached record stored WITHOUT an expiry (Redis `TTL` reports `-1`), yet
`get_symbols_to_update` includes it — because the code's test
`ttl == -2 || ttl <= 10` is satisfied by `-1` — contradicting the claim that
a record stored without expiry is not included. -/
theorem c5_no_expiry_record_included :
    alLookup stNoExpiry.prices "A" = some (priceA, none)
      ∧ get_symbols_to_update stNoExpiry = ["A"] := ⟨rfl, rfl⟩

/-- Claim C5, amended: `get_symbols_to_update` evaluates over ALL tracked
symbols (staleness of the access timestamp plays no role here), and a
tracked symbol is included exactly when its cached price record is absent,
exists without expiry, or has remaining TTL at most 10 seconds. -/
theorem c5_symbols_to_update_characterization (st : RedisState) (s : String) :
    s ∈ get_symbols_to_update st ↔
      s ∈ st.accessed.map Prod.fst ∧
        (alLookup st.prices s = none
         ∨ (∃ p, alLookup st.prices s = some (p, none))
         ∨ (∃ p t, alLookup st.prices s = some (p, some t) ∧ t ≤ 10)) := by
  rw [get_symbols_to_update, List.mem_filter]
  refine and_congr_right (fun _ => ?_)
  have h1 : ((decide (ttlCodePrice st s = -2) || decide (ttlCodePrice st s ≤ 10)) = true)
      ↔ (ttlCodePrice st s = -2 ∨ ttlCodePrice st s ≤ 10) := by
    simp only [Bool.or_eq_true, decide_eq_true_eq]
  rw [h1]
  exact ttlCond_iff_aux (alLookup st.prices s)

/-! ## Claim C6 -/

/-- Claim C6: one run of `remove_stale_symbols` removes, for every symbol
whose last access (non-negative) strictly predates `now - stale_threshold`,
both its accessed-set entry and its cached price and index records; and every
symbol accessed strictly within the threshold keeps its accessed-set entry
and both cached records unchanged. -/
theorem c6_remove_stale_symbols_spec (env : EngineEnv) (st : RedisState)
    (s : String) (sc : Int)
    (hnodup : (st.accessed.map Prod.fst).Nodup) :
    ((s, sc) ∈ st.accessed → 0 ≤ sc → sc < env.now - env.staleThreshold →
      ((∀ e ∈ (remove_stale_symbols env st).accessed, e.1 ≠ s)
        ∧ alLookup (remove_stale_symbols env st).prices s = none
        ∧ alLookup (remove_stale_symbols env st).indices s = none))
    ∧ ((s, sc) ∈ st.accessed → env.now - env.staleThreshold < sc →
      ((s, sc) ∈ (remove_stale_symbols env st).accessed
        ∧ alLookup (remove_stale_symbols env st).prices s = alLookup st.prices s
        ∧ alLookup (remove_stale_symbols env st).indices s
            = alLookup st.indices s)) := by
  constructor
  · intro hmem h0 hlt
    have hs_stale : s ∈ (st.accessed.filter
        (fun e => decide (0 ≤ e.2)
          && decide (e.2 ≤ env.now - env.staleThreshold))).map Prod.fst := by
      refine List.mem_map.mpr ⟨(s, sc), List.mem_filter.mpr ⟨hmem, ?_⟩, rfl⟩
      simp only [Bool.and_eq_true, decide_eq_true_eq]
      omega
    have hne : ((st.accessed.filter
        (fun e => decide (0 ≤ e.2)
          && decide (e.2 ≤ env.now - env.staleThreshold))).map Prod.fst).isEmpty
          = false :=
      List.isEmpty_eq_false_iff_exists_mem.mpr ⟨s, hs_stale⟩
    rw [remove_stale_symbols]
    simp only [hne, Bool.false_eq_true, if_false]
    refine ⟨?_, ?_, ?_⟩
    · intro e he heq
      have h2 := (List.mem_filter.mp he).2
      simp only [decide_eq_true_eq] at h2
      apply h2
      simp only [List.contains, List.elem_eq_mem, decide_eq_true_eq]
      rw [heq]
      exact hs_stale
    · exact alLookup_foldl_erase_mem _ _ _ hs_stale
    · exact alLookup_foldl_erase_mem _ _ _ hs_stale
  · intro hmem hgt
    have hs_not_stale : s ∉ (st.accessed.filter
        (fun e => decide (0 ≤ e.2)
          && decide (e.2 ≤ env.now - env.staleThreshold))).map Prod.fst := by
      intro hmem2
      obtain ⟨⟨s2, sc2⟩, hfil, heq⟩ := List.mem_map.mp hmem2
      simp only at heq
      rw [heq] at hfil
      have h1 := List.mem_filter.mp hfil
      have hsc : sc = sc2 :=
        eq_of_mem_of_nodupKeys st.accessed s sc sc2 hnodup hmem h1.1
      have h2 := h1.2
      simp only [Bool.and_eq_true, decide_eq_true_eq] at h2
      omega
    rw [remove_stale_symbols]
    by_cases hemp : ((st.accessed.filter
        (fun e => decide (0 ≤ e.2)
          && decide (e.2 ≤ env.now - env.staleThreshold))).map Prod.fst).isEmpty
          = true
    · simp only [hemp, if_true]
      exact ⟨hmem, trivial, trivial⟩
    · simp only [Bool.not_eq_true] at hemp
      simp only [hemp, Bool.false_eq_true, if_false]
      refine ⟨?_, ?_, ?_⟩
      · refine List.mem_filter.mpr ⟨hmem, ?_⟩
        simp only [decide_eq_true_eq]
        intro hcontains
        apply hs_not_stale
        simpa only [List.contains, List.elem_eq_mem, decide_eq_true_eq]
          using hcontains
      · exact alLookup_foldl_erase_not_mem _ _ _
          (fun x hx hxe => hs_not_stale (hxe ▸ hx))
      · exact alLookup_foldl_erase_not_mem _ _ _
          (fun x hx hxe => hs_not_stale (hxe ▸ hx))

/-- Claim C6, witness: in `stStale` (clock 400, threshold 300, cutoff 100)
symbol `OLD` last accessed at 50 loses its tracker entry, price record and
index record, while `NEW` last accessed at 400 keeps all three. -/
theorem c6_remove_stale_symbols_spec_witness :
    (∀ e ∈ (remove_stale_symbols envLate stStale).accessed, e.1 ≠ "OLD")
      ∧ alLookup (remove_stale_symbols envLate stStale).prices "OLD" = none
      ∧ alLookup (remove_stale_symbols envLate stStale).indices "OLD" = none
      ∧ ("NEW", 400) ∈ (remove_stale_symbols envLate stStale).accessed
      ∧ alLookup (remove_stale_symbols envLate stStale).prices "NEW"
          = alLookup stStale.prices "NEW"
      ∧ alLookup (remove_stale_symbols envLate stStale).indices "NEW"
          = alLookup stStale.indices "NEW" := by
  have h1 := c6_remove_stale_symbols_spec envLate stStale "OLD" 50 (by decide)
  have h2 := c6_remove_stale_symbols_spec envLate stStale "NEW" 400 (by decide)
  obtain ⟨ha, hb, hc⟩ := h1.1 (by decide) (by decide) (by decide)
  obtain ⟨hd, he, hf⟩ := h2.2 (by decide) (by decide)
  exact ⟨ha, hb, hc, hd, he, hf⟩

/-! ## Claim C7 -/

/-- Claim C7, counterexample: with both the IEX endpoint and the EOD chain
failing hard for `AAPL`, `fetch_market_data(["AAPL"])` returns `Ok []` — the
symbol is silently omitted from the batch and no error propagates to the
caller — contradicting the claim that a hard transport/auth error propagates
as a distinct error. -/
theorem c7_hard_error_swallowed :
    fetch_market_data tiingoAllErr ["AAPL"] = .ok []
      ∧ tiingoAllErr.iex (clean_symbol "AAPL")
          = .error (.externalServiceError "500")
      ∧ tiingoAllErr.eod (clean_symbol "AAPL")
          = .error (.externalServiceError "500") :=
  ⟨rfl, rfl, rfl⟩

/-- Claim C7, amended: `fetch_market_data` NEVER returns an error — every
batch comes back `Ok` with the successful subset — and a hard error from the
real-time IEX fetch is handled per symbol by falling back to the EOD chain:
the symbol's record is included when the fallback yields data and silently
omitted otherwise. -/
theorem c7_fetch_market_data_always_ok (env : TiingoEnv) (s : String)
    (e : ApiError)
    (hiex : env.iex (clean_symbol s) = .error e) :
    (∀ symbols, ∃ l, fetch_market_data env symbols = .ok l)
      ∧ fetch_market_data env [s]
        = .ok (match env.eod (clean_symbol s) with
               | .ok (some p) => [p]
               | .ok none => []
               | .error _ => []) := by
  constructor
  · intro symbols
    rw [fetch_market_data]
    by_cases hs : symbols.isEmpty
    · rw [if_pos hs]; exact ⟨[], rfl⟩
    · rw [if_neg hs]; exact ⟨_, rfl⟩
  · rw [fetch_market_data]
    simp only [List.isEmpty_cons, Bool.false_eq_true, if_false]
    rw [List.foldl_cons, hiex]
    rcases he : env.eod (clean_symbol s) with e2 | op
    · simp only [List.foldl_nil]
    · rcases op with _ | p
      · simp only [List.foldl_nil]
      · simp only [List.foldl_nil, List.nil_append]

/-- Claim C7, witness for the amended theorem at the all-failing oracle. -/
theorem c7_fetch_market_data_always_ok_witness :
    tiingoAllErr.iex (clean_symbol "AAPL") = .error (.externalServiceError "500")
      ∧ fetch_market_data tiingoAllErr ["AAPL"] = .ok [] :=
  ⟨rfl,
   (c7_fetch_market_data_always_ok tiingoAllErr "AAPL"
     (.externalServiceError "500") rfl).2⟩

/-! ## Claim C8 -/

/-- Claim C8: tracking is idempotent per symbol — starting from any
well-formed accessed set (distinct members) and performing N ≥ 1 successive
`track_accessed_symbols([s])` calls at timestamps `ts`, the accessed set ends
with EXACTLY one entry for `s`, whose score is the timestamp of the last
call; repeated tracking moves the score, it never creates a second entry or a
counter. -/
theorem c8_repeated_tracking_single_entry (env : EngineEnv) (s : String)
    (ts : List Int)
    (henv : env.trackConnFails = false)
    (hz : env.zaddFails s = false) :
    ∀ (st : RedisState), (st.accessed.map Prod.fst).Nodup → ts ≠ [] →
      countKey (trackCallSequence env s ts st).accessed s = 1
        ∧ alLookup (trackCallSequence env s ts st).accessed s = ts.getLast? := by
  induction ts with
  | nil => intro st _ hts; exact absurd rfl hts
  | cons t rest ih =>
    intro st hnodup _
    have step : trackCallSequence env s (t :: rest) st
        = trackCallSequence env s rest
            { st with accessed := zadd st.accessed s t } := by
      rw [trackCallSequence,
        track_ok { env with now := t } st [s] henv
          (fun x hx => by rw [List.mem_singleton] at hx; subst hx; exact hz)]
      rfl
    rw [step]
    cases rest with
    | nil =>
      rw [trackCallSequence]
      constructor
      · exact countKey_alInsert_self _ _ _ (countKey_of_nodup _ _ hnodup)
      · rw [List.getLast?_singleton]
        exact alLookup_alInsert_self _ _ _
    | cons r rs =>
      rw [List.getLast?_cons_cons]
      exact ih _ (nodupKeys_alInsert _ _ _ hnodup) (List.cons_ne_nil _ _)

/-- Claim C8, witness: tracking `S` twice (at 5 then 7) from the empty state
leaves exactly one entry for `S` with score 7. -/
theorem c8_repeated_tracking_single_entry_witness :
    countKey (trackCallSequence envBase "S" [5, 7] stEmpty).accessed "S" = 1
      ∧ alLookup (trackCallSequence envBase "S" [5, 7] stEmpty).accessed "S"
          = some 7 := by
  have h := c8_repeated_tracking_single_entry envBase "S" [5, 7] rfl rfl stEmpty
    (by decide) (by decide)
  exact ⟨h.1, h.2⟩

/-! ## Claim C9 -/

/-- Claim C9, counterexample: reloading with a fetched list that contains the
same ticker twice returns count 2 (the loop counter counts every record),
while `get_symbol_count` — `ZCARD` of the rebuilt sorted set, whose members
are distinct tickers — reports 1, contradicting the claimed equality. -/
theorem c9_duplicate_ticker_count_mismatch :
    (refresh_cache 0 dupTickers).2 = 2
      ∧ get_symbol_count (refresh_cache 0 dupTickers).1 = 1
      ∧ get_symbol_count (refresh_cache 0 dupTickers).1
          ≠ (refresh_cache 0 dupTickers).2 :=
  ⟨rfl, rfl, by decide⟩

/-- Claim C9, amended: after `refresh_cache` on a fetched list whose tickers
are pairwise distinct, `get_symbol_count` equals the count the reload
returned, which is the number of records passed in. -/
theorem c9_refresh_count_eq_of_distinct_tickers (now : Int)
    (nse : List UpstoxSymbol)
    (hnodup : (nse.map (fun sym => sym.symbol)).Nodup) :
    get_symbol_count (refresh_cache now nse).1 = (refresh_cache now nse).2
      ∧ (refresh_cache now nse).2 = nse.length := by
  rw [refresh_cache, load_upstox_symbols_into_redis]
  by_cases hemp : nse.isEmpty
  · rw [if_pos hemp]
    have hnil : nse = [] := List.isEmpty_iff.mp hemp
    subst hnil
    exact ⟨rfl, rfl⟩
  · rw [if_neg hemp]
    have h1 := loadFold_counter nse emptySymbolCacheState 0
    have h2 := loadFold_zset nse emptySymbolCacheState 0 hnodup (fun sym _ => rfl)
    constructor
    · show (nse.foldl loadOneSymbol (emptySymbolCacheState, 0)).1.zsetAll.length = _
      rw [h2, h1]
      simp [emptySymbolCacheState]
    · rw [h1]
      omega

/-- Claim C9, witness for the amended theorem at a two-record distinct-ticker
reload. -/
theorem c9_refresh_count_eq_of_distinct_tickers_witness :
    get_symbol_count (refresh_cache 0 distinctTickers).1
        = (refresh_cache 0 distinctTickers).2
      ∧ (refresh_cache 0 distinctTickers).2 = 2 :=
  ⟨(c9_refresh_count_eq_of_distinct_tickers 0 distinctTickers (by decide)).1,
   (c9_refresh_count_eq_of_distinct_tickers 0 distinctTickers (by decide)).2⟩

/-! ## Claim C10 -/

/-- Claim C10: for the empty input list both `get_symbol_prices` and
`get_market_indices` immediately return an empty successful response (not an
`InvalidRequest` error): no access tracking, no store lookup, no provider
call appears in the effect trace, and the store state is returned
unchanged. -/
theorem c10_empty_request_noop (env : EngineEnv) (st : RedisState) :
    get_symbol_prices env st []
        = (.ok { prices := [], timestamp := env.now }, st, [])
      ∧ get_market_indices env st []
        = (.ok { indices := [], timestamp := env.now }, st, []) :=
  ⟨rfl, rfl⟩


end MarketPulse
